import Mathlib

/-!
Shallow embedding of the checkpointable multi-file record-stream iterator in
`src/riegeli/tensorflow/kernels/riegeli_dataset_ops.cc` (class
`RiegeliDatasetOp::Dataset::Iterator`).

The iterator owns at most one open `RecordReader` at a time.  The external
`RecordReader` is modelled by a per-file script: a list of read outcomes
(`ReadEvent`) followed by what happens once the events are exhausted
(`FileEnd`).  Each `ReadRecord` call consumes one event:

  * `ReadEvent.value v`   — `ReadRecord` succeeds and yields record `v`
    (line 127 of the source);
  * `ReadEvent.corrupt m` — `ReadRecord` fails and `Recover` succeeds,
    skipping a corrupt region described by `m` (lines 132-141);
  * past the last event, `ReadRecord` fails and `Recover` fails; then
    `Close` either succeeds (`FileEnd.cleanEOF`, lines 154-157) or fails
    with the reader's captured status (`FileEnd.closeError`, lines 142-153).

`ReaderState.pos` is the index of the next unconsumed event; it stands for
`RecordPosition` (`reader_->pos()` returns it, `Seek` sets it, and errors
from a bad seek target surface on the next read, as in the source).
-/

namespace Riegeli

/-- One outcome of `RecordReader::ReadRecord` on the current file. -/
inductive ReadEvent where
  | value (v : String)
  | corrupt (msg : String)
  deriving DecidableEq, Repr

/-- What the reader reports once all events of the file are consumed. -/
inductive FileEnd where
  | cleanEOF
  | closeError (msg : String)
  deriving DecidableEq, Repr

/-- The behaviour of the `RecordSource` for one file of the file list. -/
structure FileSource where
  events : List ReadEvent
  ending : FileEnd
  deriving DecidableEq, Repr

/-- The state of an open `RecordReader<FileReader<>>`: the script of the file
it was opened on, and the current read position (index of the next
unconsumed event). -/
structure ReaderState where
  events : List ReadEvent
  ending : FileEnd
  pos : Nat
  deriving DecidableEq, Repr

/-- `OpenFile` (line 227-232) creates a reader at position 0. -/
def mkReader (f : FileSource) : ReaderState :=
  { events := f.events, ending := f.ending, pos := 0 }

/-- `OpenFile` on an index: `filenames_[current_file_index_]` is accessed
unchecked in the source; out-of-range access is unreachable under the
iterator's invariant, modelled by a junk empty file. -/
def openFile (fs : List FileSource) (idx : Nat) : ReaderState :=
  match fs.get? idx with
  | some f => mkReader f
  | none => mkReader { events := [], ending := FileEnd.cleanEOF }

/-- `reader_->Seek(pos)` (line 220): repositions; never fails eagerly —
errors from a bad target surface on the next read. -/
def seek (r : ReaderState) (p : Nat) : ReaderState := { r with pos := p }

/-- The iterator's mutable state: `current_file_index_` and the optional
open reader (lines 240-243). -/
structure IterState where
  currentFileIndex : Nat
  reader : Option ReaderState
  deriving DecidableEq, Repr

/-- Initial iterator state (member initializers: index 0, no reader). -/
def initState : IterState := { currentFileIndex := 0, reader := none }

/-- Outcome of the `if (reader_.has_value())` block of `GetNextInternal`
(lines 121-158), one `ReadRecord`/`Recover`/`Close` round. -/
inductive StepOutcome where
  | emitValue (v : String) (r : ReaderState)
  | emitDataLoss (msg : String) (r : ReaderState)
  | emitCloseError (msg : String)
  | fileDone
  deriving DecidableEq, Repr

/-- One `ReadRecord` round on the open reader (lines 121-157):
read success, recovered corruption, failed close, or clean end-of-file. -/
def readerStep (r : ReaderState) : StepOutcome :=
  match r.events.get? r.pos with
  | some (ReadEvent.value v) => StepOutcome.emitValue v { r with pos := r.pos + 1 }
  | some (ReadEvent.corrupt m) => StepOutcome.emitDataLoss m { r with pos := r.pos + 1 }
  | none =>
    match r.ending with
    | FileEnd.closeError m => StepOutcome.emitCloseError m
    | FileEnd.cleanEOF => StepOutcome.fileDone

/-- Message built at line 138-140 around the skipped region description. -/
def dataLossMessage (sk : String) : String :=
  "Skipping invalid region of a Riegeli/records file: " ++ sk

/-- Result of a `GetNextInternal` call before the `end_of_sequence` flag of a
terminal file error is computed. -/
inductive PreResult where
  | gotValue (v : String)
  | dataLoss (msg : String)
  | fileError (msg : String)
  | endOfSequence
  deriving DecidableEq, Repr

/-- Result of one `GetNextInternal` call, as seen by the caller: a record
tensor (status OK, `*end_of_sequence = false`), a `DataLoss` error
(`*end_of_sequence = false`), the terminal error of the current file
(with the `*end_of_sequence` value set at lines 148-149), or status OK with
`*end_of_sequence = true`. -/
inductive GetNextResult where
  | gotValue (v : String)
  | dataLoss (msg : String)
  | fileError (msg : String) (endOfSeq : Bool)
  | endOfSequence
  deriving DecidableEq, Repr

/-- The `*end_of_sequence` output value of a call. -/
def eosFlag : GetNextResult → Bool
  | GetNextResult.gotValue _ => false
  | GetNextResult.dataLoss _ => false
  | GetNextResult.fileError _ e => e
  | GetNextResult.endOfSequence => true

/-- Attach the `end_of_sequence` flag computed from the final index
(lines 148-149 for a file error; line 162 for end of sequence). -/
def finalize : PreResult → Nat → Nat → GetNextResult
  | PreResult.gotValue v, _, _ => GetNextResult.gotValue v
  | PreResult.dataLoss m, _, _ => GetNextResult.dataLoss m
  | PreResult.fileError m, idx, len => GetNextResult.fileError m (idx == len)
  | PreResult.endOfSequence, _, _ => GetNextResult.endOfSequence

/-- The `for (;;)` loop of `GetNextInternal` specialised to the situation
with no open reader: scan the remaining suffix of the file list (the files
from `current_file_index_` on).  Returns the produced result, the number of
files the index advanced over, and the reader left open (if any).
Each iteration mirrors lines 160-167 (end-of-sequence check, `OpenFile`)
followed by the `reader_.has_value()` block at the top of the next loop
iteration. -/
def scanList : List FileSource → PreResult × Nat × Option ReaderState
  | [] => (PreResult.endOfSequence, 0, none)
  | f :: rest =>
    match readerStep (mkReader f) with
    | StepOutcome.emitValue v r' => (PreResult.gotValue v, 0, some r')
    | StepOutcome.emitDataLoss sk r' =>
        (PreResult.dataLoss (dataLossMessage sk), 0, some r')
    | StepOutcome.emitCloseError m => (PreResult.fileError m, 1, none)
    | StepOutcome.fileDone =>
        let t := scanList rest
        (t.1, t.2.1 + 1, t.2.2)

/-- `GetNextInternal` (lines 115-169).  If a reader is open, one
`ReadRecord` round runs on it; a clean end-of-file closes the reader,
advances the index and falls through to scanning the remaining files, all
within the same call (the loop at line 120).  With no reader open, the
remaining files are scanned directly. -/
def getNextInternal (fs : List FileSource) (s : IterState) :
    GetNextResult × IterState :=
  match s.reader with
  | some r =>
    match readerStep r with
    | StepOutcome.emitValue v r' =>
        (GetNextResult.gotValue v,
         { currentFileIndex := s.currentFileIndex, reader := some r' })
    | StepOutcome.emitDataLoss sk r' =>
        (GetNextResult.dataLoss (dataLossMessage sk),
         { currentFileIndex := s.currentFileIndex, reader := some r' })
    | StepOutcome.emitCloseError m =>
        (GetNextResult.fileError m (s.currentFileIndex + 1 == fs.length),
         { currentFileIndex := s.currentFileIndex + 1, reader := none })
    | StepOutcome.fileDone =>
        let t := scanList (fs.drop (s.currentFileIndex + 1))
        (finalize t.1 (s.currentFileIndex + 1 + t.2.1) fs.length,
         { currentFileIndex := s.currentFileIndex + 1 + t.2.1, reader := t.2.2 })
  | none =>
    let t := scanList (fs.drop s.currentFileIndex)
    (finalize t.1 (s.currentFileIndex + t.2.1) fs.length,
     { currentFileIndex := s.currentFileIndex + t.2.1, reader := t.2.2 })

/-- Serialized `RecordPosition` bytes (`pos().ToBytes()`): either bytes that
`RecordPosition::FromBytes` decodes to a position, or malformed bytes. -/
inductive PosBytes where
  | valid (n : Nat)
  | invalid
  deriving DecidableEq, Repr

/-- `RecordPosition::ToBytes` on a position. -/
def posToBytes (n : Nat) : PosBytes := PosBytes.valid n

/-- `RecordPosition::FromBytes` (line 215): fails on malformed bytes. -/
def posFromBytes : PosBytes → Option Nat
  | PosBytes.valid n => some n
  | PosBytes.invalid => none

/-- The checkpoint contents written by `SaveInternal` / read by
`RestoreInternal`: the `current_file_index` scalar (an int64; absent models
a failing `ReadScalar`) and the optional `current_pos` scalar. -/
structure Checkpoint where
  fileIndex : Option Int
  currentPos : Option PosBytes
  deriving DecidableEq, Repr

/-- `SaveInternal` (lines 172-184): writes `current_file_index` always and
`current_pos` exactly when a reader is open; the iterator state itself is
left unchanged (the method only reads under the lock). -/
def saveInternal (s : IterState) : Checkpoint × IterState :=
  ({ fileIndex := some (s.currentFileIndex : Int),
     currentPos := s.reader.map (fun r => posToBytes r.pos) }, s)

/-- The errors `RestoreInternal` can return. -/
inductive RestoreError where
  /-- `ReadScalar(current_file_index)` failed (key missing). -/
  | keyMissing
  /-- `errors::Internal("current_file_index out of range")`
  (lines 200-201 and 208-209). -/
  | indexOutOfRange
  /-- `errors::Internal("current_pos is not a valid RecordPosition")`
  (lines 216-217). -/
  | invalidPosition
  deriving DecidableEq, Repr

/-- The status returned by `RestoreInternal` together with the iterator
state after the call (the method mutates the state in place). -/
structure RestoreOutcome where
  status : Option RestoreError
  state : IterState
  deriving DecidableEq, Repr

/-- `RestoreInternal` (lines 186-224).  The state is reset to index 0 with
no reader *before* any validation (lines 191-192); the prior state `_s` is
discarded.  Then `current_file_index` is read and range-checked, the index
is installed, and if `current_pos` is present it is decoded, the file is
opened and the reader seeked to the decoded position (seek errors deferred
to the next read, line 221). -/
def restoreInternal (fs : List FileSource) (ckpt : Checkpoint)
    (_s : IterState) : RestoreOutcome :=
  match ckpt.fileIndex with
  | none => { status := some RestoreError.keyMissing, state := initState }
  | some i =>
    if i < 0 then
      { status := some RestoreError.indexOutOfRange, state := initState }
    else if fs.length < i.toNat then
      { status := some RestoreError.indexOutOfRange, state := initState }
    else
      match ckpt.currentPos with
      | none =>
        { status := none,
          state := { currentFileIndex := i.toNat, reader := none } }
      | some bytes =>
        if i.toNat = fs.length then
          { status := some RestoreError.indexOutOfRange,
            state := { currentFileIndex := i.toNat, reader := none } }
        else
          match posFromBytes bytes with
          | none =>
            { status := some RestoreError.invalidPosition,
              state := { currentFileIndex := i.toNat, reader := none } }
          | some p =>
            { status := none,
              state := { currentFileIndex := i.toNat,
                         reader := some (seek (openFile fs i.toNat) p) } }

/-- The record carried by a read event, if any: a skipped corrupt region
contributes no record. -/
def recordOf : ReadEvent → Option String
  | ReadEvent.value v => some v
  | ReadEvent.corrupt _ => none

/-- The record stream of one file, excluding skipped corrupt regions. -/
def fileRecords (f : FileSource) : List String := f.events.filterMap recordOf

/-- Manual concatenation of the per-file record streams, in file-list
order. -/
def allRecords (fs : List FileSource) : List String :=
  (fs.map fileRecords).flatten

/-- Records still unread by an open reader. -/
def readerRecords (r : ReaderState) : List String :=
  (r.events.drop r.pos).filterMap recordOf

/-- Record emitted by a pre-result (none for errors and end of sequence). -/
def preEmit : PreResult → List String
  | PreResult.gotValue v => [v]
  | _ => []

/-- Record emitted by a `GetNextInternal` result. -/
def resEmit : GetNextResult → List String
  | GetNextResult.gotValue v => [v]
  | _ => []

/-- Records still unread by an optional open reader. -/
def rdRecords : Option ReaderState → List String
  | some r => readerRecords r
  | none => []

/-- Index of the first file not yet touched, given the index of the current
file and whether a reader is open on it. -/
def tailIdx (n : Nat) : Option ReaderState → Nat
  | some _ => n + 1
  | none => n

/-- Termination weight of an optional open reader: remaining events plus
one for the close. -/
def rdWeight : Option ReaderState → Nat
  | some r => (r.events.length - r.pos) + 1
  | none => 0

/-- Termination weight of one file: its events plus one for the close. -/
def fileWeight (f : FileSource) : Nat := f.events.length + 1

/-- Termination weight of a file list. -/
def listWeight (fs : List FileSource) : Nat := (fs.map fileWeight).sum

/-- Records the iterator at state `s` has yet to emit: the open reader's
remaining records followed by the streams of the untouched files. -/
def stateRecords (fs : List FileSource) (s : IterState) : List String :=
  rdRecords s.reader ++ allRecords (fs.drop (tailIdx s.currentFileIndex s.reader))

/-- Termination measure of an iterator state: every non-terminal
`GetNextInternal` call strictly decreases it. -/
def stateMeasure (fs : List FileSource) (s : IterState) : Nat :=
  rdWeight s.reader + listWeight (fs.drop (tailIdx s.currentFileIndex s.reader))

/-- Repeatedly call `GetNextInternal` until it signals end of sequence
(which is included as the final element), or until the fuel runs out. -/
def runFor (fs : List FileSource) : Nat → IterState → List GetNextResult
  | 0, _ => []
  | n + 1, s =>
    let t := getNextInternal fs s
    if t.1 = GetNextResult.endOfSequence then [GetNextResult.endOfSequence]
    else t.1 :: runFor fs n t.2

/-- The records among a sequence of call results. -/
def emittedRecords (l : List GetNextResult) : List String :=
  l.filterMap fun r =>
    match r with
    | GetNextResult.gotValue v => some v
    | _ => none

/-- The open reader was opened on the file at index `idx` of the file list
(its script is that file's script; its position is arbitrary, since a
restore may have seeked anywhere). -/
def ReaderMatches (fs : List FileSource) (idx : Nat) (r : ReaderState) : Prop :=
  ∃ f, fs.get? idx = some f ∧ r.events = f.events ∧ r.ending = f.ending

/-- The iterator's documented invariant (source lines 234-237) together
with the fact that the open reader, if any, reads the current file. -/
def GoodState (fs : List FileSource) (s : IterState) : Prop :=
  s.currentFileIndex ≤ fs.length ∧
    ∀ r, s.reader = some r →
      s.currentFileIndex < fs.length ∧ ReaderMatches fs s.currentFileIndex r

/-- Iterator states reachable from the initial state through
`GetNextInternal`, `SaveInternal` and successful `RestoreInternal` calls. -/
inductive Reachable (fs : List FileSource) : IterState → Prop where
  | init : Reachable fs initState
  | step {s : IterState} : Reachable fs s →
      Reachable fs (getNextInternal fs s).2
  | saveStep {s : IterState} : Reachable fs s →
      Reachable fs (saveInternal s).2
  | restoreStep {s : IterState} (ckpt : Checkpoint) : Reachable fs s →
      (restoreInternal fs ckpt s).status = none →
      Reachable fs (restoreInternal fs ckpt s).state

/-! ### Concrete fixture used by the witnesses -/

/-- A three-file list exercising all behaviours: records then a recovered
corruption, an empty file, and a file whose close fails. -/
def sampleFiles : List FileSource :=
  [{ events := [ReadEvent.value "a1", ReadEvent.value "a2",
                ReadEvent.corrupt "bad region"],
     ending := FileEnd.cleanEOF },
   { events := [], ending := FileEnd.cleanEOF },
   { events := [ReadEvent.value "c1"], ending := FileEnd.closeError "close failed" }]

/-! ### Basic facts about one read round -/

lemma readerStep_value {r : ReaderState} {v : String} {r' : ReaderState}
    (h : readerStep r = StepOutcome.emitValue v r') :
    r.events.get? r.pos = some (ReadEvent.value v) ∧
      r' = { r with pos := r.pos + 1 } := by
  unfold readerStep at h
  cases he : r.events.get? r.pos with
  | none => rw [he] at h; cases hend : r.ending <;> rw [hend] at h <;> simp at h
  | some e =>
    rw [he] at h
    cases e with
    | value w =>
      simp only [StepOutcome.emitValue.injEq] at h
      obtain ⟨rfl, rfl⟩ := h
      exact ⟨rfl, rfl⟩
    | corrupt m => simp at h

lemma readerStep_dataLoss {r : ReaderState} {m : String} {r' : ReaderState}
    (h : readerStep r = StepOutcome.emitDataLoss m r') :
    r.events.get? r.pos = some (ReadEvent.corrupt m) ∧
      r' = { r with pos := r.pos + 1 } := by
  unfold readerStep at h
  cases he : r.events.get? r.pos with
  | none => rw [he] at h; cases hend : r.ending <;> rw [hend] at h <;> simp at h
  | some e =>
    rw [he] at h
    cases e with
    | value w => simp at h
    | corrupt m0 =>
      simp only [StepOutcome.emitDataLoss.injEq] at h
      obtain ⟨rfl, rfl⟩ := h
      exact ⟨rfl, rfl⟩

lemma readerStep_closeError {r : ReaderState} {m : String}
    (h : readerStep r = StepOutcome.emitCloseError m) :
    r.events.get? r.pos = none ∧ r.ending = FileEnd.closeError m := by
  unfold readerStep at h
  cases he : r.events.get? r.pos with
  | none =>
    rw [he] at h
    cases hend : r.ending <;> rw [hend] at h <;> simp_all
  | some e => rw [he] at h; cases e <;> simp at h

lemma readerStep_fileDone {r : ReaderState}
    (h : readerStep r = StepOutcome.fileDone) :
    r.events.get? r.pos = none ∧ r.ending = FileEnd.cleanEOF := by
  unfold readerStep at h
  cases he : r.events.get? r.pos with
  | none =>
    rw [he] at h
    cases hend : r.ending <;> rw [hend] at h <;> simp_all
  | some e => rw [he] at h; cases e <;> simp at h

/-- Splitting a list at a position holding a known element. -/
lemma drop_of_get? {α : Type} {l : List α} {p : Nat} {a : α}
    (h : l.get? p = some a) : l.drop p = a :: l.drop (p + 1) := by
  induction l generalizing p with
  | nil => simp at h
  | cons x t ih =>
    cases p with
    | zero => simp at h; simp [h]
    | succ q =>
      simp only [List.get?] at h
      simp [List.drop_succ_cons, ih h]

lemma lt_length_of_get? {α : Type} {l : List α} {p : Nat} {a : α}
    (h : l.get? p = some a) : p < l.length := by
  by_contra hn
  push_neg at hn
  rw [List.get?_eq_none.mpr hn] at h
  simp at h

lemma allRecords_cons (f : FileSource) (rest : List FileSource) :
    allRecords (f :: rest) = fileRecords f ++ allRecords rest := by
  simp [allRecords]

lemma listWeight_cons (f : FileSource) (rest : List FileSource) :
    listWeight (f :: rest) = fileWeight f + listWeight rest := by
  simp [listWeight]

lemma resEmit_finalize (p : PreResult) (i l : Nat) :
    resEmit (finalize p i l) = preEmit p := by
  cases p <;> rfl

lemma finalize_eos_iff (p : PreResult) (i l : Nat) :
    finalize p i l = GetNextResult.endOfSequence ↔
      p = PreResult.endOfSequence := by
  cases p <;> simp [finalize]

/-- Correctness of one pass of the `GetNextInternal` loop over a suffix of
the file list: the records of the suffix split as the emitted record, the
records left in the opened reader, and the records of the files not yet
touched; the pass stays inside the suffix, signals end of sequence exactly
when it consumed the whole suffix, leaves a reader open only on a file of
the suffix (at the position after the consumed event), and strictly
decreases the weight unless it signals end of sequence. -/
lemma scanList_spec (l : List FileSource) (res : PreResult) (n : Nat)
    (rd : Option ReaderState) (h : scanList l = (res, n, rd)) :
    allRecords l = preEmit res ++ rdRecords rd ++ allRecords (l.drop (tailIdx n rd))
    ∧ tailIdx n rd ≤ l.length
    ∧ (res = PreResult.endOfSequence → rd = none ∧ n = l.length)
    ∧ (∀ r', rd = some r' →
        ∃ f, l.get? n = some f ∧ r'.events = f.events ∧ r'.ending = f.ending)
    ∧ (res ≠ PreResult.endOfSequence →
        rdWeight rd + listWeight (l.drop (tailIdx n rd)) < listWeight l) := by
  induction l generalizing res n rd with
  | nil =>
    simp only [scanList] at h
    obtain ⟨rfl, rfl, rfl⟩ := Prod.mk.injEq .. ▸ h
    refine ⟨by simp [allRecords, rdRecords, preEmit, tailIdx], by simp [tailIdx], ?_, ?_, ?_⟩
    · intro _; exact ⟨rfl, rfl⟩
    · intro r' hr'; simp at hr'
    · intro hne; exact absurd rfl hne
  | cons f rest ih =>
    simp only [scanList] at h
    cases hstep : readerStep (mkReader f) with
    | emitValue v r' =>
      rw [hstep] at h
      obtain ⟨he, hr'⟩ := readerStep_value hstep
      simp only [Prod.mk.injEq] at h
      obtain ⟨rfl, rfl, rfl⟩ := h
      simp only [mkReader] at he hr'
      have hsplit : f.events.drop 0 = ReadEvent.value v :: f.events.drop 1 :=
        drop_of_get? he
      have hlen : 0 < f.events.length := lt_length_of_get? he
      constructor
      · rw [allRecords_cons]
        simp only [preEmit, rdRecords, tailIdx, readerRecords, hr']
        simp only [List.drop_one] at hsplit ⊢
        rw [fileRecords, ← List.drop_zero f.events, hsplit]
        simp [recordOf]
      refine ⟨?_, ?_, ?_, ?_⟩
      · simp [tailIdx]
      · intro hres; exact PreResult.noConfusion hres
      · intro r0 hr0
        obtain rfl : r' = r0 := by injection hr0
        exact ⟨f, rfl, by rw [hr'], by rw [hr']⟩
      · intro _
        simp only [tailIdx, rdWeight, hr', listWeight_cons, List.drop_succ_cons,
          List.drop_zero, fileWeight]
        omega
    | emitDataLoss m r' =>
      rw [hstep] at h
      obtain ⟨he, hr'⟩ := readerStep_dataLoss hstep
      simp only [Prod.mk.injEq] at h
      obtain ⟨rfl, rfl, rfl⟩ := h
      simp only [mkReader] at he hr'
      have hsplit : f.events.drop 0 = ReadEvent.corrupt m :: f.events.drop 1 :=
        drop_of_get? he
      have hlen : 0 < f.events.length := lt_length_of_get? he
      constructor
      · rw [allRecords_cons]
        simp only [preEmit, rdRecords, tailIdx, readerRecords, hr']
        simp only [List.drop_one] at hsplit ⊢
        rw [fileRecords, ← List.drop_zero f.events, hsplit]
        simp [recordOf]
      refine ⟨?_, ?_, ?_, ?_⟩
      · simp [tailIdx]
      · intro hres; exact PreResult.noConfusion hres
      · intro r0 hr0
        obtain rfl : r' = r0 := by injection hr0
        exact ⟨f, rfl, by rw [hr'], by rw [hr']⟩
      · intro _
        simp only [tailIdx, rdWeight, hr', listWeight_cons, List.drop_succ_cons,
          List.drop_zero, fileWeight]
        omega
    | emitCloseError m =>
      rw [hstep] at h
      obtain ⟨he, _⟩ := readerStep_closeError hstep
      simp only [Prod.mk.injEq] at h
      obtain ⟨rfl, rfl, rfl⟩ := h
      simp only [mkReader] at he
      have hnil : f.events = [] := by
        have := List.get?_eq_none.mp he
        exact List.eq_nil_of_length_eq_zero (by omega)
      constructor
      · rw [allRecords_cons]
        simp [preEmit, rdRecords, tailIdx, fileRecords, hnil]
      refine ⟨?_, ?_, ?_, ?_⟩
      · simp [tailIdx]
      · intro hres; exact PreResult.noConfusion hres
      · intro r0 hr0; simp at hr0
      · intro _
        simp only [tailIdx, rdWeight, listWeight_cons, List.drop_succ_cons,
          List.drop_zero, fileWeight, hnil]
        simp
    | fileDone =>
      rw [hstep] at h
      obtain ⟨he, _⟩ := readerStep_fileDone hstep
      simp only [mkReader] at he
      have hnil : f.events = [] := by
        have := List.get?_eq_none.mp he
        exact List.eq_nil_of_length_eq_zero (by omega)
      rcases ht : scanList rest with ⟨res0, n0, rd0⟩
      rw [ht] at h
      simp only [Prod.mk.injEq] at h
      obtain ⟨rfl, rfl, rfl⟩ := h
      obtain ⟨ih1, ih2, ih3, ih4, ih5⟩ := ih res0 n0 rd0 ht
      have htail : tailIdx (n0 + 1) rd0 = tailIdx n0 rd0 + 1 := by
        cases rd0 <;> simp [tailIdx]
      constructor
      · rw [allRecords_cons, htail, List.drop_succ_cons]
        simp [fileRecords, hnil, ih1]
      refine ⟨?_, ?_, ?_, ?_⟩
      · rw [htail]; simpa using Nat.succ_le_succ ih2
      · intro hres
        obtain ⟨hrd, hn⟩ := ih3 hres
        exact ⟨hrd, by simp [hn]⟩
      · intro r0 hr0
        obtain ⟨f0, hf0, hev, hen⟩ := ih4 r0 hr0
        exact ⟨f0, by simpa using hf0, hev, hen⟩
      · intro hne
        rw [htail, List.drop_succ_cons, listWeight_cons]
        have := ih5 hne
        simp only [fileWeight, hnil]
        omega

lemma tailIdx_add (base n : Nat) (rd : Option ReaderState) :
    tailIdx (base + n) rd = base + tailIdx n rd := by
  cases rd <;> simp [tailIdx, Nat.add_assoc]

/-- `scanList_spec` restated over a suffix of the full file list, in terms
of the resulting iterator state. -/
lemma scan_from {fs : List FileSource} {base : Nat} (hbase : base ≤ fs.length)
    {res0 : PreResult} {n : Nat} {rd : Option ReaderState}
    (ht : scanList (fs.drop base) = (res0, n, rd)) :
    GoodState fs { currentFileIndex := base + n, reader := rd }
    ∧ allRecords (fs.drop base) =
        preEmit res0 ++
          stateRecords fs { currentFileIndex := base + n, reader := rd }
    ∧ (res0 = PreResult.endOfSequence → rd = none ∧ base + n = fs.length)
    ∧ (res0 ≠ PreResult.endOfSequence →
        stateMeasure fs { currentFileIndex := base + n, reader := rd } <
          listWeight (fs.drop base)) := by
  obtain ⟨h1, h2, h3, h4, h5⟩ := scanList_spec _ _ _ _ ht
  have hlen : (fs.drop base).length = fs.length - base := List.length_drop ..
  have hdd : ∀ k, (fs.drop base).drop k = fs.drop (base + k) := fun k => by
    rw [List.drop_drop]
  rw [hlen] at h2
  refine ⟨?_, ?_, ?_, ?_⟩
  · refine ⟨?_, ?_⟩
    · show base + n ≤ fs.length
      cases rd with
      | none => simp only [tailIdx] at h2; omega
      | some r0 => simp only [tailIdx] at h2; omega
    · intro r0 hr0
      simp only at hr0
      subst hr0
      obtain ⟨f, hf, hev, hen⟩ := h4 r0 rfl
      have hn : n < (fs.drop base).length := lt_length_of_get? hf
      rw [hlen] at hn
      refine ⟨?_, f, ?_, hev, hen⟩
      · show base + n < fs.length
        omega
      · show fs.get? (base + n) = some f
        rw [← List.get?_drop]
        exact hf
  · rw [h1, hdd]
    simp [stateRecords, tailIdx_add, List.append_assoc]
  · intro hres
    obtain ⟨rfl, hn⟩ := h3 hres
    refine ⟨rfl, ?_⟩
    rw [List.length_drop] at hn
    simp only [tailIdx] at h2
    omega
  · intro hne
    have h5' := h5 hne
    have hms : stateMeasure fs { currentFileIndex := base + n, reader := rd } =
        rdWeight rd + listWeight ((fs.drop base).drop (tailIdx n rd)) := by
      simp [stateMeasure, tailIdx_add, hdd]
    rw [hms]
    exact h5'

/-- One `GetNextInternal` call from a good state: the state stays good, the
remaining records split as the emitted record plus the new state's
remaining records, an end-of-sequence result leaves the iterator exactly at
the end state, and any other result strictly decreases the measure. -/
lemma getNext_spec {fs : List FileSource} {s : IterState} (hg : GoodState fs s)
    {res : GetNextResult} {s' : IterState}
    (h : getNextInternal fs s = (res, s')) :
    GoodState fs s'
    ∧ stateRecords fs s = resEmit res ++ stateRecords fs s'
    ∧ (res = GetNextResult.endOfSequence →
        s' = { currentFileIndex := fs.length, reader := none })
    ∧ (res ≠ GetNextResult.endOfSequence →
        stateMeasure fs s' < stateMeasure fs s) := by
  obtain ⟨hle, hrd⟩ := hg
  cases hr : s.reader with
  | none =>
    rcases ht : scanList (fs.drop s.currentFileIndex) with ⟨res0, n, rd⟩
    obtain ⟨g1, g2, g3, g4⟩ := scan_from hle ht
    simp only [getNextInternal, hr, ht] at h
    simp only [Prod.mk.injEq] at h
    obtain ⟨rfl, rfl⟩ := h
    refine ⟨g1, ?_, ?_, ?_⟩
    · rw [resEmit_finalize]
      simpa [stateRecords, rdRecords, tailIdx, hr] using g2
    · intro hres
      rw [finalize_eos_iff] at hres
      obtain ⟨rfl, hn⟩ := g3 hres
      simp [hn]
    · intro hres
      rw [Ne, finalize_eos_iff] at hres
      have h4' := g4 hres
      have hms : stateMeasure fs s = listWeight (fs.drop s.currentFileIndex) := by
        simp [stateMeasure, rdWeight, tailIdx, hr]
      rw [hms]
      exact lt_of_lt_of_le h4' (le_refl _)
  | some r =>
    obtain ⟨hlt, f, hf, hev, hen⟩ := hrd r hr
    cases hstep : readerStep r with
    | emitValue v r' =>
      obtain ⟨he, hr'⟩ := readerStep_value hstep
      simp only [getNextInternal, hr, hstep] at h
      simp only [Prod.mk.injEq] at h
      obtain ⟨rfl, rfl⟩ := h
      have hsplit := drop_of_get? he
      have hlen := lt_length_of_get? he
      refine ⟨?_, ?_, ?_, ?_⟩
      · refine ⟨hle, ?_⟩
        intro r0 hr0
        simp only at hr0
        obtain rfl : r' = r0 := by injection hr0
        exact ⟨hlt, f, hf, by simp [hr', hev], by simp [hr', hen]⟩
      · simp only [stateRecords, rdRecords, tailIdx, hr, readerRecords,
          resEmit, hr', hsplit]
        simp [recordOf]
      · intro hres; exact GetNextResult.noConfusion hres
      · intro _
        simp [stateMeasure, rdWeight, tailIdx, hr, hr']
        omega
    | emitDataLoss m r' =>
      obtain ⟨he, hr'⟩ := readerStep_dataLoss hstep
      simp only [getNextInternal, hr, hstep] at h
      simp only [Prod.mk.injEq] at h
      obtain ⟨rfl, rfl⟩ := h
      have hsplit := drop_of_get? he
      have hlen := lt_length_of_get? he
      refine ⟨?_, ?_, ?_, ?_⟩
      · refine ⟨hle, ?_⟩
        intro r0 hr0
        simp only at hr0
        obtain rfl : r' = r0 := by injection hr0
        exact ⟨hlt, f, hf, by simp [hr', hev], by simp [hr', hen]⟩
      · simp only [stateRecords, rdRecords, tailIdx, hr, readerRecords,
          resEmit, hr', hsplit]
        simp [recordOf]
      · intro hres; exact GetNextResult.noConfusion hres
      · intro _
        simp [stateMeasure, rdWeight, tailIdx, hr, hr']
        omega
    | emitCloseError m =>
      obtain ⟨he, _⟩ := readerStep_closeError hstep
      simp only [getNextInternal, hr, hstep] at h
      simp only [Prod.mk.injEq] at h
      obtain ⟨rfl, rfl⟩ := h
      have hnil : r.events.drop r.pos = [] :=
        List.drop_eq_nil_of_le (List.get?_eq_none.mp he)
      refine ⟨?_, ?_, ?_, ?_⟩
      · refine ⟨?_, ?_⟩
        · show s.currentFileIndex + 1 ≤ fs.length
          omega
        · intro r0 hr0
          simp at hr0
      · simp [stateRecords, rdRecords, tailIdx, hr, readerRecords, hnil,
          resEmit]
      · intro hres; exact GetNextResult.noConfusion hres
      · intro _
        have hlen := List.get?_eq_none.mp he
        simp [stateMeasure, rdWeight, tailIdx, hr]
    | fileDone =>
      obtain ⟨he, _⟩ := readerStep_fileDone hstep
      have hnil : r.events.drop r.pos = [] :=
        List.drop_eq_nil_of_le (List.get?_eq_none.mp he)
      rcases ht : scanList (fs.drop (s.currentFileIndex + 1)) with ⟨res0, n, rd⟩
      obtain ⟨g1, g2, g3, g4⟩ := scan_from (by omega : s.currentFileIndex + 1 ≤ fs.length) ht
      simp only [getNextInternal, hr, hstep, ht] at h
      simp only [Prod.mk.injEq] at h
      obtain ⟨rfl, rfl⟩ := h
      refine ⟨g1, ?_, ?_, ?_⟩
      · rw [resEmit_finalize]
        simpa [stateRecords, rdRecords, tailIdx, hr, readerRecords, hnil]
          using g2
      · intro hres
        rw [finalize_eos_iff] at hres
        obtain ⟨rfl, hn⟩ := g3 hres
        simp [hn]
      · intro hres
        rw [Ne, finalize_eos_iff] at hres
        have h1 := g4 hres
        have hlen := List.get?_eq_none.mp he
        simp [stateMeasure, rdWeight, tailIdx, hr] at h1 ⊢
        omega

lemma goodState_init (fs : List FileSource) : GoodState fs initState := by
  refine ⟨Nat.zero_le _, ?_⟩
  intro r hr
  simp [initState] at hr

lemma stateRecords_init (fs : List FileSource) :
    stateRecords fs initState = allRecords fs := by
  simp [stateRecords, initState, rdRecords, tailIdx]

lemma emittedRecords_cons (r : GetNextResult) (l : List GetNextResult) :
    emittedRecords (r :: l) = resEmit r ++ emittedRecords l := by
  cases r <;> simp [emittedRecords, resEmit]

/-- Driving a good iterator state with enough fuel produces all its
remaining records, then a single end-of-sequence signal as the final
result. -/
lemma runFor_spec (fs : List FileSource) :
    ∀ (fuel : Nat) (s : IterState), GoodState fs s →
      stateMeasure fs s < fuel →
      ∃ l, runFor fs fuel s = l ++ [GetNextResult.endOfSequence]
        ∧ GetNextResult.endOfSequence ∉ l
        ∧ emittedRecords l = stateRecords fs s
  | 0, s, _, hm => absurd hm (by omega)
  | fuel + 1, s, hg, hm => by
    rcases hstep : getNextInternal fs s with ⟨res, s'⟩
    obtain ⟨g1, g2, g3, g4⟩ := getNext_spec hg hstep
    by_cases hres : res = GetNextResult.endOfSequence
    · subst hres
      refine ⟨[], ?_, by simp, ?_⟩
      · simp [runFor, hstep]
      · have hend := g3 rfl
        rw [g2, hend]
        simp [resEmit, emittedRecords, stateRecords, rdRecords, tailIdx,
          List.drop_length, allRecords]
    · have hm' : stateMeasure fs s' < fuel := by
        have := g4 hres
        omega
      obtain ⟨l', hl1, hl2, hl3⟩ := runFor_spec fs fuel s' g1 hm'
      refine ⟨res :: l', ?_, ?_, ?_⟩
      · simp [runFor, hstep, hres, hl1]
      · intro hmem
        rcases List.mem_cons.mp hmem with hc | hc
        · exact hres hc.symm
        · exact hl2 hc
      · rw [emittedRecords_cons, hl3, g2]

/-- Saving and then restoring a good state succeeds and reconstructs
exactly the same state. -/
lemma restore_save {fs : List FileSource} {s : IterState}
    (hg : GoodState fs s) :
    restoreInternal fs (saveInternal s).1 (saveInternal s).2 =
      { status := none, state := s } := by
  obtain ⟨idx, rd⟩ := s
  obtain ⟨hle, hrd⟩ := hg
  have hle' : idx ≤ fs.length := hle
  have h1 : ¬ ((idx : Int) < 0) := by omega
  have htn : ((idx : Int)).toNat = idx := rfl
  have h2 : ¬ (fs.length < ((idx : Int)).toNat) := by
    rw [htn]; omega
  cases rd with
  | none =>
    have hsv : saveInternal { currentFileIndex := idx, reader := none } =
        ({ fileIndex := some ((idx : Int)), currentPos := none },
         { currentFileIndex := idx, reader := none }) := by
      simp [saveInternal]
    rw [hsv]
    simp only [restoreInternal]
    rw [if_neg h1, if_neg h2, htn]
  | some r =>
    obtain ⟨hlt, f, hf, hev, hen⟩ := hrd r rfl
    have hlt' : idx < fs.length := hlt
    have hf' : fs.get? idx = some f := hf
    have h3 : ¬ (((idx : Int)).toNat = fs.length) := by
      rw [htn]; omega
    have hopen : openFile fs idx = mkReader f := by
      unfold openFile
      rw [hf']
    have hseek : seek (mkReader f) r.pos = r := by
      simp [seek, mkReader, ← hev, ← hen]
    have hsv : saveInternal { currentFileIndex := idx, reader := some r } =
        ({ fileIndex := some ((idx : Int)),
           currentPos := some (posToBytes r.pos) },
         { currentFileIndex := idx, reader := some r }) := by
      simp [saveInternal]
    rw [hsv]
    simp only [restoreInternal, posToBytes, posFromBytes]
    rw [if_neg h1, if_neg h2, if_neg h3, htn, hopen, hseek]

/-- A successful restore, from any checkpoint and any prior state, yields a
good state. -/
lemma restore_ok_good (fs : List FileSource) (ckpt : Checkpoint)
    (s : IterState) (h : (restoreInternal fs ckpt s).status = none) :
    GoodState fs (restoreInternal fs ckpt s).state := by
  cases hfi : ckpt.fileIndex with
  | none => simp [restoreInternal, hfi] at h
  | some i =>
    by_cases h1 : i < 0
    · simp [restoreInternal, hfi, h1] at h
    · by_cases h2 : fs.length < i.toNat
      · simp [restoreInternal, hfi, h1, h2] at h
      · cases hcp : ckpt.currentPos with
        | none =>
          have hout : restoreInternal fs ckpt s =
              { status := none,
                state := { currentFileIndex := i.toNat, reader := none } } := by
            simp [restoreInternal, hfi, h1, h2, hcp]
          rw [hout]
          refine ⟨?_, ?_⟩
          · show i.toNat ≤ fs.length
            omega
          · intro r hr
            simp at hr
        | some bytes =>
          by_cases h3 : i.toNat = fs.length
          · simp [restoreInternal, hfi, h1, h2, hcp, h3] at h
          · cases hpb : posFromBytes bytes with
            | none => simp [restoreInternal, hfi, h1, h2, hcp, h3, hpb] at h
            | some p =>
              have hlt : i.toNat < fs.length := by omega
              have hf : fs.get? i.toNat = some (fs.get ⟨i.toNat, hlt⟩) :=
                List.get?_eq_get hlt
              have hout : restoreInternal fs ckpt s =
                  { status := none,
                    state := { currentFileIndex := i.toNat,
                               reader := some
                                 (seek (openFile fs i.toNat) p) } } := by
                simp [restoreInternal, hfi, h1, h2, hcp, h3, hpb]
              rw [hout]
              have hopen : openFile fs i.toNat =
                  mkReader (fs.get ⟨i.toNat, hlt⟩) := by
                unfold openFile
                rw [hf]
              refine ⟨?_, ?_⟩
              · show i.toNat ≤ fs.length
                omega
              · intro r hr
                simp only at hr
                injection hr with hr'
                subst hr'
                refine ⟨hlt, fs.get ⟨i.toNat, hlt⟩, hf, ?_, ?_⟩ <;>
                  simp [hopen, seek, mkReader]

/-- Every reachable state is good. -/
lemma reachable_good {fs : List FileSource} {s : IterState}
    (h : Reachable fs s) : GoodState fs s := by
  induction h with
  | init => exact goodState_init fs
  | @step s0 _ ih =>
    rcases hstep : getNextInternal fs s0 with ⟨res, s'⟩
    exact (getNext_spec ih hstep).1
  | @saveStep s0 _ ih => simpa [saveInternal] using ih
  | @restoreStep s0 ckpt _ hok _ => exact restore_ok_good fs ckpt s0 hok

/-! ### The claims -/

/-- C1: for every file list and every behaviour of the per-file sources,
repeatedly calling produce-next until it signals end-of-sequence emits
exactly the records of each file in strict file-list order (each file's
records in source order, skipped corrupt regions excluded), with a single
end-of-sequence signal at the end and none before it: a clean end-of-file
of a non-final file is crossed inside one call and never surfaces to the
caller. -/
theorem c1_produce_all (fs : List FileSource) (fuel : Nat)
    (hfuel : stateMeasure fs initState < fuel) :
    ∃ l, runFor fs fuel initState = l ++ [GetNextResult.endOfSequence]
      ∧ GetNextResult.endOfSequence ∉ l
      ∧ emittedRecords l = allRecords fs := by
  obtain ⟨l, h1, h2, h3⟩ :=
    runFor_spec fs fuel initState (goodState_init fs) hfuel
  exact ⟨l, h1, h2, by rw [h3, stateRecords_init]⟩

theorem c1_produce_all_witness :
    stateMeasure sampleFiles initState < 10
    ∧ ∃ l, runFor sampleFiles 10 initState = l ++ [GetNextResult.endOfSequence]
        ∧ GetNextResult.endOfSequence ∉ l
        ∧ emittedRecords l = allRecords sampleFiles :=
  ⟨by decide, c1_produce_all sampleFiles 10 (by decide)⟩

/-- C2 counterexample: restoring a cursor with file index 2 on a one-file
list fails with the range error, but the iterator state is NOT left as it
was before the call: a prior state at file index 1 ends up reset to file
index 0 (lines 191-192 reset the state before any validation). -/
theorem c2_counterexample :
    (restoreInternal [{ events := [], ending := FileEnd.cleanEOF }]
          { fileIndex := some 2, currentPos := none }
          { currentFileIndex := 1, reader := none }).status =
        some RestoreError.indexOutOfRange
    ∧ (restoreInternal [{ events := [], ending := FileEnd.cleanEOF }]
          { fileIndex := some 2, currentPos := none }
          { currentFileIndex := 1, reader := none }).state ≠
        { currentFileIndex := 1, reader := none } := by
  constructor
  · decide
  · decide

/-- C2 (amended): restoring a cursor whose file index strictly exceeds the
file-list length fails with the range error, and the iterator is left reset
to file index 0 with no open source — the state held before the call is
discarded, not preserved. -/
theorem c2_restore_out_of_range (fs : List FileSource) (ckpt : Checkpoint)
    (s : IterState) (i : Int) (hfi : ckpt.fileIndex = some i)
    (hrange : (fs.length : Int) < i) :
    restoreInternal fs ckpt s =
      { status := some RestoreError.indexOutOfRange, state := initState } := by
  have h1 : ¬ (i < 0) := by omega
  have h2 : fs.length < i.toNat := by omega
  simp [restoreInternal, hfi, h1, h2]

theorem c2_restore_out_of_range_witness :
    ({ fileIndex := some 5, currentPos := none } : Checkpoint).fileIndex =
        some 5
    ∧ ((([] : List FileSource).length : Int) < 5)
    ∧ restoreInternal [] { fileIndex := some 5, currentPos := none }
          { currentFileIndex := 0, reader := none } =
        { status := some RestoreError.indexOutOfRange, state := initState } :=
  ⟨rfl, by decide,
   c2_restore_out_of_range [] { fileIndex := some 5, currentPos := none }
     { currentFileIndex := 0, reader := none } 5 rfl (by decide)⟩

/-- C3: for every reachable iterator state, saving and then restoring the
saved cursor with no intervening produce-next calls succeeds and
reconstructs exactly the original state, so every subsequent sequence of
produce-next outputs (records, data-loss notifications, file errors,
end-of-sequence) is identical to what the original iterator would have
produced. -/
theorem c3_save_restore_roundtrip (fs : List FileSource) (s : IterState)
    (h : Reachable fs s) :
    (restoreInternal fs (saveInternal s).1 (saveInternal s).2).status = none
    ∧ (restoreInternal fs (saveInternal s).1 (saveInternal s).2).state = s
    ∧ ∀ n, runFor fs n
        (restoreInternal fs (saveInternal s).1 (saveInternal s).2).state =
          runFor fs n s := by
  have hr := restore_save (reachable_good h)
  rw [hr]
  exact ⟨rfl, rfl, fun n => rfl⟩

theorem c3_save_restore_roundtrip_witness :
    Reachable sampleFiles (getNextInternal sampleFiles initState).2
    ∧ (restoreInternal sampleFiles
          (saveInternal (getNextInternal sampleFiles initState).2).1
          (saveInternal (getNextInternal sampleFiles initState).2).2).state =
        (getNextInternal sampleFiles initState).2 :=
  ⟨Reachable.step Reachable.init,
   (c3_save_restore_roundtrip sampleFiles _
      (Reachable.step Reachable.init)).2.1⟩

/-- C4: when the read of the open source fails and recovery yields a
skipped region, the call returns the data-loss error carrying the region's
description, the end-of-sequence flag is false, and the state keeps the
same file index with the reader still open, positioned past the skipped
region — so the next call resumes reading the same file. -/
theorem c4_recovered_corruption (fs : List FileSource) (s : IterState)
    (r : ReaderState) (sk : String) (hr : s.reader = some r)
    (he : r.events.get? r.pos = some (ReadEvent.corrupt sk)) :
    getNextInternal fs s =
      (GetNextResult.dataLoss (dataLossMessage sk),
       { currentFileIndex := s.currentFileIndex,
         reader := some { events := r.events, ending := r.ending,
                          pos := r.pos + 1 } })
    ∧ eosFlag (getNextInternal fs s).1 = false := by
  have hstep : readerStep r =
      StepOutcome.emitDataLoss sk { r with pos := r.pos + 1 } := by
    unfold readerStep
    rw [he]
  constructor
  · simp [getNextInternal, hr, hstep]
  · simp [getNextInternal, hr, hstep, eosFlag]

theorem c4_recovered_corruption_witness :
    getNextInternal []
        { currentFileIndex := 0,
          reader := some { events := [ReadEvent.corrupt "oops"],
                           ending := FileEnd.cleanEOF, pos := 0 } } =
      (GetNextResult.dataLoss (dataLossMessage "oops"),
       { currentFileIndex := 0,
         reader := some { events := [ReadEvent.corrupt "oops"],
                          ending := FileEnd.cleanEOF, pos := 1 } }) :=
  (c4_recovered_corruption []
     { currentFileIndex := 0,
       reader := some { events := [ReadEvent.corrupt "oops"],
                        ending := FileEnd.cleanEOF, pos := 0 } }
     { events := [ReadEvent.corrupt "oops"],
       ending := FileEnd.cleanEOF, pos := 0 } "oops" rfl rfl).1

/-- C5: when the read fails, recovery yields nothing, and closing the
source reports an error, the call discards the source, advances the file
index by one, and returns the source's captured terminal error (with the
end-of-sequence flag set exactly when no file remains); the resulting state
has no open reader, so the next call continues the scan with the next
file or signals end of sequence. -/
theorem c5_unrecoverable_failure (fs : List FileSource) (s : IterState)
    (r : ReaderState) (m : String) (hr : s.reader = some r)
    (he : r.events.get? r.pos = none)
    (hend : r.ending = FileEnd.closeError m) :
    getNextInternal fs s =
      (GetNextResult.fileError m (s.currentFileIndex + 1 == fs.length),
       { currentFileIndex := s.currentFileIndex + 1, reader := none }) := by
  have hstep : readerStep r = StepOutcome.emitCloseError m := by
    unfold readerStep
    rw [he, hend]
  simp [getNextInternal, hr, hstep]

theorem c5_unrecoverable_failure_witness :
    getNextInternal sampleFiles
        { currentFileIndex := 0,
          reader := some { events := [],
                           ending := FileEnd.closeError "io error",
                           pos := 0 } } =
      (GetNextResult.fileError "io error" (0 + 1 == sampleFiles.length),
       { currentFileIndex := 0 + 1, reader := none }) :=
  c5_unrecoverable_failure sampleFiles
    { currentFileIndex := 0,
      reader := some { events := [], ending := FileEnd.closeError "io error",
                       pos := 0 } }
    { events := [], ending := FileEnd.closeError "io error", pos := 0 }
    "io error" rfl rfl rfl

/-- C6: for a cursor that carries a byte position: restore fails with the
consistency error when the cursor's file index equals the file-list length;
with an in-range index and decodable position bytes, restore opens the
source for that file, seeks it to the stored position, and returns success
for every stored position value, however meaningless at the source level
(the failure would surface on the next produce-next call); only position
bytes that fail to decode are rejected by restore itself. -/
theorem c6_restore_with_position (fs : List FileSource) (i : Nat)
    (b : PosBytes) (s : IterState) :
    (i = fs.length →
      restoreInternal fs
          { fileIndex := some (i : Int), currentPos := some b } s =
        { status := some RestoreError.indexOutOfRange,
          state := { currentFileIndex := i, reader := none } })
    ∧ (∀ p, i < fs.length → posFromBytes b = some p →
      restoreInternal fs
          { fileIndex := some (i : Int), currentPos := some b } s =
        { status := none,
          state := { currentFileIndex := i,
                     reader := some (seek (openFile fs i) p) } })
    ∧ (i < fs.length → posFromBytes b = none →
      restoreInternal fs
          { fileIndex := some (i : Int), currentPos := some b } s =
        { status := some RestoreError.invalidPosition,
          state := { currentFileIndex := i, reader := none } }) := by
  have h1 : ¬ ((i : Int) < 0) := by omega
  have htn : ((i : Int)).toNat = i := rfl
  refine ⟨?_, ?_, ?_⟩
  · intro hi
    have h2 : ¬ (fs.length < ((i : Int)).toNat) := by rw [htn]; omega
    have h3 : ((i : Int)).toNat = fs.length := by rw [htn, hi]
    simp only [restoreInternal]
    rw [if_neg h1, if_neg h2, if_pos h3, htn]
  · intro p hi hp
    have h2 : ¬ (fs.length < ((i : Int)).toNat) := by rw [htn]; omega
    have h3 : ¬ (((i : Int)).toNat = fs.length) := by rw [htn]; omega
    simp only [restoreInternal]
    rw [if_neg h1, if_neg h2, if_neg h3, hp, htn]
  · intro hi hp
    have h2 : ¬ (fs.length < ((i : Int)).toNat) := by rw [htn]; omega
    have h3 : ¬ (((i : Int)).toNat = fs.length) := by rw [htn]; omega
    simp only [restoreInternal]
    rw [if_neg h1, if_neg h2, if_neg h3, hp, htn]

theorem c6_restore_with_position_witness :
    0 < sampleFiles.length
    ∧ posFromBytes (PosBytes.valid 99) = some 99
    ∧ restoreInternal sampleFiles
          { fileIndex := some ((0 : Nat) : Int),
            currentPos := some (PosBytes.valid 99) } initState =
        { status := none,
          state := { currentFileIndex := 0,
                     reader := some (seek (openFile sampleFiles 0) 99) } } :=
  ⟨by decide, rfl,
   (c6_restore_with_position sampleFiles 0 (PosBytes.valid 99)
      initState).2.1 99 (by decide) rfl⟩

/-- C7: save leaves the iterator state unchanged, always records the
current file index, and records the open reader's position (the index of
the next unread record) exactly when a source is open. -/
theorem c7_save_projection (s : IterState) :
    (saveInternal s).2 = s
    ∧ (saveInternal s).1.fileIndex = some (s.currentFileIndex : Int)
    ∧ (∀ r, s.reader = some r →
        (saveInternal s).1.currentPos = some (posToBytes r.pos))
    ∧ (s.reader = none → (saveInternal s).1.currentPos = none) := by
  refine ⟨rfl, rfl, ?_, ?_⟩
  · intro r hr
    simp [saveInternal, hr]
  · intro hr
    simp [saveInternal, hr]

theorem c7_save_projection_witness :
    initState.reader = none
    ∧ (saveInternal initState).1.currentPos = none :=
  ⟨rfl, (c7_save_projection initState).2.2.2 rfl⟩

/-- C8: every reachable iterator state satisfies the documented invariant
(source lines 234-237): the current file index is at most the file-list
length, and when it equals the length no source is open.  Reachability is
closed under produce-next, save, and successful restore, so each of those
calls preserves the invariant. -/
theorem c8_invariant (fs : List FileSource) (s : IterState)
    (h : Reachable fs s) :
    s.currentFileIndex ≤ fs.length
    ∧ (s.currentFileIndex = fs.length → s.reader = none) := by
  obtain ⟨h1, h2⟩ := reachable_good h
  refine ⟨h1, ?_⟩
  intro heq
  cases hr : s.reader with
  | none => rfl
  | some r =>
    have := (h2 r hr).1
    omega

theorem c8_invariant_witness :
    initState.currentFileIndex ≤ ([] : List FileSource).length
    ∧ (initState.currentFileIndex = ([] : List FileSource).length →
        initState.reader = none) :=
  c8_invariant [] initState Reachable.init

/-- C9: whenever restore returns an error — missing checkpoint key,
out-of-range file index, or position bytes that fail to decode — the
iterator is left with no open source: the reader is reset at the start of
the call, before any validation, and a new source is opened only after all
validations succeed. -/
theorem c9_restore_error_no_reader (fs : List FileSource) (ckpt : Checkpoint)
    (s : IterState) (e : RestoreError)
    (h : (restoreInternal fs ckpt s).status = some e) :
    (restoreInternal fs ckpt s).state.reader = none := by
  cases hfi : ckpt.fileIndex with
  | none => simp [restoreInternal, hfi, initState]
  | some i =>
    by_cases h1 : i < 0
    · simp [restoreInternal, hfi, h1, initState]
    · by_cases h2 : fs.length < i.toNat
      · simp [restoreInternal, hfi, h1, h2, initState]
      · cases hcp : ckpt.currentPos with
        | none => simp [restoreInternal, hfi, h1, h2, hcp] at h
        | some bytes =>
          by_cases h3 : i.toNat = fs.length
          · simp [restoreInternal, hfi, h1, h2, hcp, h3]
          · cases hpb : posFromBytes bytes with
            | none => simp [restoreInternal, hfi, h1, h2, hcp, h3, hpb]
            | some p =>
              simp [restoreInternal, hfi, h1, h2, hcp, h3, hpb] at h

theorem c9_restore_error_no_reader_witness :
    (restoreInternal [] { fileIndex := none, currentPos := none }
        initState).status = some RestoreError.keyMissing
    ∧ (restoreInternal [] { fileIndex := none, currentPos := none }
        initState).state.reader = none :=
  ⟨rfl, c9_restore_error_no_reader [] { fileIndex := none, currentPos := none }
     initState RestoreError.keyMissing rfl⟩

/-- C10: an unrecoverable failure while reading the last file of the list
is reported by a call that returns the file's terminal error together with
the end-of-sequence flag already set to true — the two signals are
delivered in the same call, not on separate calls. -/
theorem c10_last_file_error_eos (fs : List FileSource) (s : IterState)
    (r : ReaderState) (m : String) (hr : s.reader = some r)
    (he : r.events.get? r.pos = none)
    (hend : r.ending = FileEnd.closeError m)
    (hlast : s.currentFileIndex + 1 = fs.length) :
    getNextInternal fs s =
      (GetNextResult.fileError m true,
       { currentFileIndex := fs.length, reader := none }) := by
  have hstep : readerStep r = StepOutcome.emitCloseError m := by
    unfold readerStep
    rw [he, hend]
  simp [getNextInternal, hr, hstep, hlast]

theorem c10_last_file_error_eos_witness :
    getNextInternal [{ events := [], ending := FileEnd.closeError "boom" }]
        { currentFileIndex := 0,
          reader := some { events := [],
                           ending := FileEnd.closeError "boom", pos := 0 } } =
      (GetNextResult.fileError "boom" true,
       { currentFileIndex :=
           [({ events := [], ending := FileEnd.closeError "boom" } :
              FileSource)].length,
         reader := none }) :=
  c10_last_file_error_eos
    [{ events := [], ending := FileEnd.closeError "boom" }]
    { currentFileIndex := 0,
      reader := some { events := [], ending := FileEnd.closeError "boom",
                       pos := 0 } }
    { events := [], ending := FileEnd.closeError "boom", pos := 0 }
    "boom" rfl rfl rfl rfl

end Riegeli
